import Mathlib

/-!
Verification development for `djaodjin-multitier`.

A shallow embedding in Lean 4 of the two source modules:
  * `multitier/urlresolvers.py` — the per-tenant URL resolver with its
    lazily built, re-entrancy-guarded reverse/namespace/app tables;
  * `multitier/models.py` — the `Site` record, the domain-name validators
    and the `get_site_or_none` subdomain lookup.

Python strings that play the role of regular-expression pattern fragments
are modelled as `List Char` (so that concatenation lemmas are ordinary
list lemmas); identifier-like strings (names, callbacks, namespaces,
tenant path prefixes) stay `String`.  Mutable per-resolver state is passed
explicitly; exceptions (`KeyError`) are `Except`.  The thread-local
"current site" read by `get_current_site()` (module `thread_locals`,
an external collaborator of the two modules above) is passed as an
explicit `Option SiteCtx` parameter; single-threaded executions are
modelled, so the per-thread `populating` flag is a field of the
per-resolver state.
-/

set_option autoImplicit false

namespace Multitier

/-! ### Association-list primitives

Python `dict` / `MultiValueDict` operations used by `_populate`:
insertion-ordered dictionaries are association lists, `d[k] = v` is
`dictInsert` (updates the first matching key in place, else appends),
`MultiValueDict.appendlist` appends to the value list of a key, and
`MultiValueDict.getlist` returns the value list (default `[]`). -/

def dictLookup {α : Type} : List (String × α) → String → Option α
  | [], _ => none
  | (k0, v0) :: rest, k => if k0 = k then some v0 else dictLookup rest k

def dictInsert {α : Type} : List (String × α) → String → α → List (String × α)
  | [], k, v => [(k, v)]
  | (k0, v0) :: rest, k, v =>
      if k0 = k then (k0, v) :: rest else (k0, v0) :: dictInsert rest k v

/-- Python `set.add` on a set modelled as a duplicate-free list. -/
def setAdd (l : List String) (x : String) : List String :=
  if x ∈ l then l else l ++ [x]

/-- Python `set.update`. -/
def setUnion (l : List String) (xs : List String) : List String :=
  xs.foldl setAdd l

/-- `dict(d1, **d2)`: keys of `d1` in order with values overridden by `d2`,
then the keys of `d2` that are not in `d1`. -/
def kvUpdate (d1 d2 : List (String × String)) : List (String × String) :=
  d1.map (fun kv =>
    match dictLookup d2 kv.1 with
    | some v => (kv.1, v)
    | none => kv)
  ++ d2.filter (fun kv => (dictLookup d1 kv.1).isNone)

/-! ### Tenant context and path-prefix selection -/

/-- The handle returned by the Tenant Context collaborator
(`thread_locals.get_current_site`): the resolver only reads its
`path_prefix` string (field `pathPfx` here). -/
structure SiteCtx where
  pathPfx : String

/-- `RegexURLResolver._get_path_prefix` (urlresolvers.py lines 46-52):
`"_"` unless a current site exists and has a truthy (non-empty)
`path_prefix`. -/
def getPathPfx (site : Option SiteCtx) : String :=
  match site with
  | none => "_"
  | some s => if s.pathPfx ≠ "" then s.pathPfx else "_"

/-- `SiteRegexURLResolver.regex` (urlresolvers.py lines 151-157): the
dynamic pattern, `'^%s/' % path_prefix` for a real tenant, the no-op
pattern `'^'` for the sentinel. -/
def siteRegexPattern (site : Option SiteCtx) : List Char :=
  let px := getPathPfx site
  if px ≠ "_" then '^' :: (px.data ++ ['/']) else ['^']

/-- Lines 76-77 of `_populate`: strip one leading `'^'` anchor. -/
def stripCaret : List Char → List Char
  | '^' :: rest => rest
  | l => l

/-! ### The pattern graph and the per-resolver state -/

/-- One entry of the reverse multimap: the output of
`normalize(...)` (group structure), the accumulated raw pattern string,
and the default arguments (urlresolvers.py lines 89-97, 108-113). -/
structure RevEntry where
  bits : List (List Char × List String)
  pat : List Char
  defaults : List (String × String)

/-- The `MultiValueDict` of reverse-lookup entries. -/
abbrev MVD := List (String × List RevEntry)

/-- `namespace -> (pattern-prefix, sub-resolver)`.  The second component
of the pair identifies the stored sub-resolver object by its static regex
string; no operation modelled here inspects it. -/
abbrev NsDict := List (String × (List Char × List Char))

/-- `app_name -> list of namespaces`. -/
abbrev AppDict := List (String × List String)

/-- The mutable attributes of one `RegexURLResolver` instance:
`_local.populating` (single-threaded execution, so one flag),
`_populated`, `_reverse_dict`, `_namespace_dict`, `_app_dict` (all three
keyed by path prefix) and `_callback_strs`. -/
structure ResState where
  populating : Bool
  populated : Bool
  reverseD : List (String × MVD)
  namespaceD : List (String × NsDict)
  appD : List (String × AppDict)
  callbackStrs : List String

/-- A fresh resolver state (`__init__`). -/
def emptySt : ResState := ⟨false, false, [], [], [], []⟩

/-- A node of the pattern graph.

`pat` is a `RegexURLPattern` leaf: regex fragment, `lookup_str`,
callback (identified by a string), optional name, default arguments.

`res` is a `RegexURLResolver` (with `isSite = true` for the
`SiteRegexURLResolver` subclass, whose `regex` property is dynamic):
static regex fragment, optional namespace and app name, default keyword
arguments, children (`url_patterns`), and its mutable state. -/
inductive URLPattern : Type where
  | pat (regexP : List Char) (lookupStr : String) (callback : String)
      (name : Option String) (defaultArgs : List (String × String)) : URLPattern
  | res (isSite : Bool) (regexP : List Char) (nspace : Option String)
      (appName : Option String) (defaultKwargs : List (String × String))
      (children : List URLPattern) (st : ResState) : URLPattern

def stOf : URLPattern → ResState
  | .pat _ _ _ _ _ => emptySt
  | .res _ _ _ _ _ _ st => st

def isLeaf : URLPattern → Bool
  | .pat _ _ _ _ _ => true
  | .res _ _ _ _ _ _ _ => false

/-- `pattern.regex.pattern`: static for leaves and plain resolvers, the
dynamic prefix pattern for a `SiteRegexURLResolver`. -/
def regexOf (site : Option SiteCtx) : URLPattern → List Char
  | .pat rx _ _ _ _ => rx
  | .res isSite rx _ _ _ _ _ => if isSite then siteRegexPattern site else rx

/-- Interface model of the external collaborator
`django.utils.regex_helper.normalize`: a list of
(candidate pattern, parameter names) pairs.  Its internals are outside
this repository and no claim inspects them; we use the identity form
`[(pattern, [])]`, which is also Django's own fallback for patterns it
cannot decompose.  `_populate` only ever stores this value opaquely. -/
def normalize (p : List Char) : List (List Char × List String) :=
  [(p, [])]

/-! ### `_populate` (urlresolvers.py lines 58-118)

The two nested `for` loops that merge a non-namespaced child resolver's
tables (lines 85-103) become `mergeChild`, `mergeNs`, `mergeApps`; the
walk over `reversed(self.url_patterns)` becomes a left fold of
`childStep` over the reversed child list.  Recursion into child
resolvers is fuel-indexed (`populate fuel site r`); fuel only decreases
with the nesting depth of `_populate` calls, so any fuel larger than the
tree depth behaves like the unbounded Python recursion. -/

def getlist (m : MVD) (k : String) : List RevEntry :=
  (dictLookup m k).getD []

def appendlist : MVD → String → RevEntry → MVD
  | [], k, v => [(k, [v])]
  | (k0, vs) :: rest, k, v =>
      if k0 = k then (k0, vs ++ [v]) :: rest else (k0, vs) :: appendlist rest k v

/-- Lines 89-96: the tuple appended for one entry of a non-namespaced
child's table: re-normalized full pattern, re-prefixed raw pattern, and
`dict(defaults, **pattern.default_kwargs)`. -/
def chTransform (pp ppat : List Char) (cdkw : List (String × String))
    (e : RevEntry) : RevEntry :=
  ⟨normalize (ppat ++ e.pat), pp ++ e.pat, kvUpdate e.defaults cdkw⟩

/-- Lines 86-97: for every name of the child's reverse table, append the
re-prefixed entries to this level's multimap. `pp` is the stripped parent
fragment `p_pattern`, `ppat` the unstripped `parent_pat`, `cdkw` the
child's `default_kwargs`. -/
def mergeChild (pp ppat : List Char) (cdkw : List (String × String))
    (lk : MVD) (t : MVD) : MVD :=
  t.foldl (fun acc kv =>
    kv.2.foldl (fun acc2 e =>
      appendlist acc2 kv.1 (chTransform pp ppat cdkw e)) acc) lk

/-- Lines 98-101: re-prefix and merge the child's namespace dict. -/
def mergeNs (pp : List Char) (nss : NsDict) (child : NsDict) : NsDict :=
  child.foldl (fun acc kv => dictInsert acc kv.1 (pp ++ kv.2.1, kv.2.2)) nss

/-- `apps.setdefault(k, []).extend(vs)` / `.append(v)`. -/
def appsExtend : AppDict → String → List String → AppDict
  | [], k, vs => [(k, vs)]
  | (k0, v0) :: rest, k, vs =>
      if k0 = k then (k0, v0 ++ vs) :: rest else (k0, v0) :: appsExtend rest k vs

/-- Lines 102-103: merge the child's app dict. -/
def mergeApps (apps : AppDict) (child : AppDict) : AppDict :=
  child.foldl (fun acc kv => appsExtend acc kv.1 kv.2) apps

/-- The state threaded through the loop of `_populate`: the processed
children (accumulated in reverse, so a fold over `children.reverse`
rebuilds the original order), `self._callback_strs`, and either the three
local tables (`lookups`, `namespaces`, `apps`) or the exception that
aborted the walk.  On an exception the local tables are discarded but
child-state mutations and `_callback_strs` additions persist, exactly as
in Python. -/
structure LoopAcc where
  done : List URLPattern
  cbs : List String
  body : Except String (MVD × NsDict × AppDict)

/-- One iteration of `for pattern in reversed(self.url_patterns)`
(lines 71-113).  `pop` is the recursive `_populate` call on a child
(`fun c => populate n site c`); the `reverse_dict` / `namespace_dict` /
`app_dict` property reads on a child (which populate on a cache miss and
then index the table, raising `KeyError` when the key is still absent,
lines 120-139) are inlined. -/
def childStep (site : Option SiteCtx)
    (pop : URLPattern → URLPattern × Except String Unit)
    (acc : LoopAcc) (c : URLPattern) : LoopAcc :=
  match acc.body with
  | .error e => ⟨c :: acc.done, acc.cbs, .error e⟩
  | .ok (lk, nss, apps) =>
    match c with
    | .pat rx ls cb nm df =>
        -- lines 72-73, 107-113
        let cbs1 := setAdd acc.cbs ls
        let pp := stripCaret rx
        let bits := normalize pp
        let lk1 := appendlist lk cb ⟨bits, pp, df⟩
        let lk2 :=
          match nm with
          | some m => appendlist lk1 m ⟨bits, pp, df⟩
          | none => lk1
        ⟨c :: acc.done, cbs1, .ok (lk2, nss, apps)⟩
    | .res _cIsSite crx cns capp cdkw _cch cst =>
        let pp := stripCaret (regexOf site c)
        match cns with
        | some nsName =>
            -- lines 79-83
            let nss1 := dictInsert nss nsName (pp, crx)
            let apps1 :=
              match capp with
              | some a => appsExtend apps a [nsName]
              | none => apps
            -- lines 104-106
            let step4 := if cst.populating then (c, Except.ok ()) else pop c
            match step4 with
            | (c4, .error e) => ⟨c4 :: acc.done, acc.cbs, .error e⟩
            | (c4, .ok _) =>
                ⟨c4 :: acc.done, setUnion acc.cbs (stOf c4).callbackStrs,
                  .ok (lk, nss1, apps1)⟩
        | none =>
            -- lines 84-103: anonymous include; property reads inlined
            let ppat := regexOf site c
            let px := getPathPfx site
            let step1 :=
              if (dictLookup cst.reverseD px).isNone then pop c
              else (c, Except.ok ())
            match step1 with
            | (c1, .error e) => ⟨c1 :: acc.done, acc.cbs, .error e⟩
            | (c1, .ok _) =>
              match dictLookup (stOf c1).reverseD px with
              | none => ⟨c1 :: acc.done, acc.cbs, .error ("KeyError: " ++ px)⟩
              | some ct =>
                let lk1 := mergeChild pp ppat cdkw lk ct
                let step2 :=
                  if (dictLookup (stOf c1).namespaceD px).isNone then pop c1
                  else (c1, Except.ok ())
                match step2 with
                | (c2, .error e) => ⟨c2 :: acc.done, acc.cbs, .error e⟩
                | (c2, .ok _) =>
                  match dictLookup (stOf c2).namespaceD px with
                  | none => ⟨c2 :: acc.done, acc.cbs, .error ("KeyError: " ++ px)⟩
                  | some cnsT =>
                    let nss1 := mergeNs pp nss cnsT
                    let step3 :=
                      if (dictLookup (stOf c2).appD px).isNone then pop c2
                      else (c2, Except.ok ())
                    match step3 with
                    | (c3, .error e) => ⟨c3 :: acc.done, acc.cbs, .error e⟩
                    | (c3, .ok _) =>
                      match dictLookup (stOf c3).appD px with
                      | none =>
                          ⟨c3 :: acc.done, acc.cbs, .error ("KeyError: " ++ px)⟩
                      | some caT =>
                        let apps1 := mergeApps apps caT
                        -- lines 104-106
                        let step4 :=
                          if (stOf c3).populating then (c3, Except.ok ())
                          else pop c3
                        match step4 with
                        | (c4, .error e) => ⟨c4 :: acc.done, acc.cbs, .error e⟩
                        | (c4, .ok _) =>
                            ⟨c4 :: acc.done,
                              setUnion acc.cbs (stOf c4).callbackStrs,
                              .ok (lk1, nss1, apps1)⟩

/-- `RegexURLResolver._populate` (lines 58-118), as a state transformer
returning the updated resolver and either normal completion or the
propagated exception.  Note the source has no `try/finally`: on an
exception the flag set at line 66 is *not* reset. -/
def populate : Nat → Option SiteCtx → URLPattern → URLPattern × Except String Unit
  | 0, _, r => (r, .error "RecursionError")
  | Nat.succ n, site, r =>
    match r with
    | .pat _ _ _ _ _ => (r, .ok ())
    | .res isSite rx ns app dkw ch st =>
      -- lines 64-65: re-entrancy guard
      if st.populating then (r, .ok ())
      else
        -- line 66: acquire; lines 67-70: locals
        let px := getPathPfx site
        let out := (ch.reverse).foldl
          (childStep site (fun c => populate n site c))
          ⟨[], st.callbackStrs, .ok ([], [], [])⟩
        match out.body with
        | .ok (lk, nss, apps) =>
            -- lines 114-118
            (.res isSite rx ns app dkw out.done
              { st with
                populating := false
                populated := true
                reverseD := dictInsert st.reverseD px lk
                namespaceD := dictInsert st.namespaceD px nss
                appD := dictInsert st.appD px apps
                callbackStrs := out.cbs },
              .ok ())
        | .error e =>
            -- exception propagates with the flag still set
            (.res isSite rx ns app dkw out.done
              { st with populating := true, callbackStrs := out.cbs },
              .error e)

/-- The `reverse_dict` property (lines 120-125): populate on a cache miss
for the current prefix, then index the cache (a miss raises `KeyError`). -/
def reverseDictAcc (fuel : Nat) (site : Option SiteCtx) (r : URLPattern) :
    URLPattern × Except String MVD :=
  let px := getPathPfx site
  let step :=
    if (dictLookup (stOf r).reverseD px).isNone then populate fuel site r
    else (r, Except.ok ())
  match step with
  | (r1, .error e) => (r1, .error e)
  | (r1, .ok _) =>
    match dictLookup (stOf r1).reverseD px with
    | some t => (r1, .ok t)
    | none => (r1, .error ("KeyError: " ++ px))

/-- The `namespace_dict` property (lines 127-132). -/
def namespaceDictAcc (fuel : Nat) (site : Option SiteCtx) (r : URLPattern) :
    URLPattern × Except String NsDict :=
  let px := getPathPfx site
  let step :=
    if (dictLookup (stOf r).namespaceD px).isNone then populate fuel site r
    else (r, Except.ok ())
  match step with
  | (r1, .error e) => (r1, .error e)
  | (r1, .ok _) =>
    match dictLookup (stOf r1).namespaceD px with
    | some t => (r1, .ok t)
    | none => (r1, .error ("KeyError: " ++ px))

/-- The `app_dict` property (lines 134-139). -/
def appDictAcc (fuel : Nat) (site : Option SiteCtx) (r : URLPattern) :
    URLPattern × Except String AppDict :=
  let px := getPathPfx site
  let step :=
    if (dictLookup (stOf r).appD px).isNone then populate fuel site r
    else (r, Except.ok ())
  match step with
  | (r1, .error e) => (r1, .error e)
  | (r1, .ok _) =>
    match dictLookup (stOf r1).appD px with
    | some t => (r1, .ok t)
    | none => (r1, .error ("KeyError: " ++ px))

/-- `site_patterns(*leaves)` wraps the leaves in one fresh
`SiteRegexURLResolver('', leaves)` (lines 160-167). -/
def mkSite (leaves : List URLPattern) : URLPattern :=
  .res true [] none none [] leaves emptySt

/-- The root URLconf resolver holding the `site_patterns` result as its
only (anonymous, non-namespaced) child. -/
def mkRoot (leaves : List URLPattern) : URLPattern :=
  .res false ('^' :: ['/']) none none [] [mkSite leaves] emptySt


/-! ### Closed forms for leaf-only walks

The walk of `_populate` restricted to leaf children performs no recursive
calls; the following functions state its effect in closed form
(`foldlLeaves_eq` below proves the correspondence), and `leafPopState`
the resulting resolver state of a `SiteRegexURLResolver` holding only
leaves. -/

def pushRev (ls : List URLPattern) (d : List URLPattern) : List URLPattern :=
  ls.foldl (fun acc c => c :: acc) d

def leafCbsF (cbs : List String) : List URLPattern → List String
  | [] => cbs
  | .pat _ ls _ _ _ :: rest => leafCbsF (setAdd cbs ls) rest
  | .res _ _ _ _ _ _ _ :: rest => leafCbsF cbs rest

/-- Lines 107-113 for a single leaf. -/
def appendLeaf (lk : MVD) : URLPattern → MVD
  | .pat rx _ cb nm df =>
      let pp := stripCaret rx
      let bits := normalize pp
      let lk1 := appendlist lk cb ⟨bits, pp, df⟩
      (match nm with
       | some m => appendlist lk1 m ⟨bits, pp, df⟩
       | none => lk1)
  | .res _ _ _ _ _ _ _ => lk

def leafLkF (lk : MVD) : List URLPattern → MVD
  | [] => lk
  | c :: rest => leafLkF (appendLeaf lk c) rest

/-- The reverse multimap a resolver with the given (leaf-only) children
stores for any one prefix: the leaves in reverse declaration order. -/
def leafLookups (leaves : List URLPattern) : MVD :=
  leafLkF [] leaves.reverse

def allLeafCbs (cbs : List String) (leaves : List URLPattern) : List String :=
  leafCbsF cbs leaves.reverse

/-- The state of a leaf-only resolver after one completed `_populate`
under prefix `px`, starting from state `st`. -/
def leafPopState (px : String) (st : ResState) (leaves : List URLPattern) :
    ResState :=
  ⟨false, true,
    dictInsert st.reverseD px (leafLookups leaves),
    dictInsert st.namespaceD px [],
    dictInsert st.appD px [],
    allLeafCbs st.callbackStrs leaves⟩

/-! ### `models.py`: Site records, `get_site_or_none`, domain validation -/

/-- The fields of a persisted `Site` record that `get_site_or_none`
touches (models.py lines 55-81): primary key (creation-ordered),
`subdomain`, and the nullable `domain`. -/
structure SiteRec where
  pk : Nat
  subdomain : String
  domain : Option String

def chLt (a b : Char) : Bool := a.toNat < b.toNat

/-- Lexicographic string comparison (database string collation). -/
def strLtB : List Char → List Char → Bool
  | _, [] => false
  | [], _ :: _ => true
  | a :: as, b :: bs =>
      if chLt a b then true else if chLt b a then false else strLtB as bs

/-- Ordering on the nullable `domain` column: `NULL` below every string
(so that the `-domain` descending sort of models.py line 141 puts rows
with a domain first, as the default database backends do). -/
def domLtB : Option String → Option String → Bool
  | none, none => false
  | none, some _ => true
  | some _, none => false
  | some a, some b => strLtB a.data b.data

/-- Strictly-before in the *ascending* `(domain, pk)` order; row `b`
precedes row `a` in `order_by('-domain', '-pk')` iff `siteLt a b`. -/
def siteLt (a b : SiteRec) : Bool :=
  domLtB a.domain b.domain || (decide (a.domain = b.domain) && decide (a.pk < b.pk))

def bestOf1 (b : SiteRec) : List SiteRec → SiteRec
  | [] => b
  | s :: rest => bestOf1 (if siteLt b s then s else b) rest

/-- `.first()` of the queryset sorted by `order_by('-domain', '-pk')`:
the maximum row under the `(domain, pk)` key, `none` on an empty set. -/
def bestOf : List SiteRec → Option SiteRec
  | [] => none
  | s :: rest => some (bestOf1 s rest)

/-- `get_site_or_none` (models.py lines 134-141):
`filter(subdomain=subdomain).order_by('-domain', '-pk').first()` over the
stored `Site` rows. -/
def get_site_or_none (sites : List SiteRec) (subdomain : String) :
    Option SiteRec :=
  bestOf (sites.filter (fun s => decide (s.subdomain = subdomain)))

/-- Python `string.whitespace`. -/
def stringWhitespace : List Char := [' ', '\t', '\n', '\x0d', '\x0b', '\x0c']

/-- `domain_name_validator` (models.py lines 41-53): accept falsy values,
reject any value containing one of the six `string.whitespace`
characters.  `true` means "no ValidationError raised". -/
def domain_name_validator (value : String) : Bool :=
  if value = "" then true
  else !(stringWhitespace.any (fun s => value.data.contains s))

/-- `[a-z0-9]`. -/
def isAlnumL (c : Char) : Bool :=
  (97 ≤ c.toNat && c.toNat ≤ 122) || (48 ≤ c.toNat && c.toNat ≤ 57)

/-- `[a-z0-9\-]`. -/
def isLabelCh (c : Char) : Bool := isAlnumL c || c.toNat = 45

/-- After the leading `[a-z0-9]`: consume `[a-z0-9\-]*`, then require
`\.` followed by one `[a-z0-9\-]`.  Because the character class excludes
the dot, the greedy scan is exactly the backtracking search. -/
def tailLabel : List Char → Bool
  | [] => false
  | c :: rest =>
      if isLabelCh c then tailLabel rest
      else c.toNat = 46 &&
        (match rest with
         | d :: _ => isLabelCh d
         | [] => false)

/-- Does `[a-z0-9][a-z0-9\-]*(\.[a-z0-9\-])+` match starting here?  (One
`(\.[a-z0-9\-])` group suffices for matching; further repetitions never
turn a match into a non-match.) -/
def matchAt : List Char → Bool
  | [] => false
  | c :: rest => isAlnumL c && tailLabel rest

/-- `re.search` of the pattern of models.py line 60: a match may start at
any position (Django's `RegexValidator` uses `regex.search(value)`). -/
def searchDomain : List Char → Bool
  | [] => false
  | c :: rest => matchAt (c :: rest) || searchDomain rest

/-- The `RegexValidator` of models.py lines 59-61. `true` = accepted. -/
def regexSearchOk (v : String) : Bool := searchDomain v.data

/-- Validation of the `domain` field value: Django runs a field's
validators only on non-empty values, then every validator must accept
(models.py lines 57-61). -/
def validateDomain (v : String) : Bool :=
  if v = "" then true
  else domain_name_validator v && regexSearchOk v

/-! ### `url_sites` (urlresolvers.py lines 170-215)

Two definitions exist in the source: the modern one when
`django.urls.resolvers.RegexPattern` imports (lines 173-195) and the
legacy fallback on `ImportError` (lines 198-215).  The `view` argument is
a tuple produced by `include(...)`, a callable, a dotted string (legacy),
or something else such as `None`. -/

inductive ViewArg : Type where
  | vtuple (elems : List String)
  | vcallable (f : String)
  | vstr (s : String)
  | vnone

/-- Python truthiness of the `view` argument (`if not view`). -/
def truthyView : ViewArg → Bool
  | .vtuple es => !es.isEmpty
  | .vcallable _ => true
  | .vstr s => if s = "" then false else true
  | .vnone => false

def isCallableV : ViewArg → Bool
  | .vcallable _ => true
  | _ => false

def isListTupleV : ViewArg → Bool
  | .vtuple _ => true
  | _ => false

inductive UrlError : Type where
  | improperlyConfigured (msg : String)
  | typeError (msg : String)
  | valueError
  | indexError

inductive UrlNode : Type where
  | resolverNode (regex : String) (urlconf : String)
      (kwargs : Option (List (String × String)))
      (appName : Option String) (nspace : Option String)
  | patternNode (regex : String) (view : ViewArg)
      (kwargs : Option (List (String × String))) (name : Option String)

/-- The modern `url_sites` (lines 173-195).  A truthy list/tuple is
unpacked as `urlconf_module, app_name, namespace = view`; a length other
than three raises `ValueError`. -/
def url_sites (regex : String) (view : ViewArg)
    (kwargs : Option (List (String × String))) (name : Option String) :
    Except UrlError UrlNode :=
  if truthyView view = false then
    .error (.improperlyConfigured
      ("Empty URL pattern view name not permitted (for pattern " ++ regex ++ ")"))
  else
    match view with
    | .vtuple [m, a, ns] => .ok (.resolverNode regex m kwargs (some a) (some ns))
    | .vtuple _ => .error .valueError
    | .vcallable f => .ok (.patternNode regex (.vcallable f) kwargs name)
    | _ =>
        .error (.typeError
          "view must be a callable or a list/tuple in the case of include().")

/-- The legacy fallback `url_sites` (lines 198-215): a list/tuple is
handled first (`view[0]` raises `IndexError` on an empty one, the
optional `view[1:]` become `app_name` / `namespace`); only *string*
views are checked for emptiness and optionally prefixed; anything else is
passed to the pattern class unchecked. -/
def url_sites_compat (regex : String) (view : ViewArg)
    (kwargs : Option (List (String × String))) (name : Option String)
    (pfxArg : String) : Except UrlError UrlNode :=
  match view with
  | .vtuple [] => .error .indexError
  | .vtuple (m :: rest) => .ok (.resolverNode regex m kwargs rest[0]? rest[1]?)
  | .vstr s =>
      if s = "" then
        .error (.improperlyConfigured
          ("Empty URL pattern view name not permitted (for pattern " ++ regex ++ ")"))
      else
        .ok (.patternNode regex
          (.vstr (if pfxArg ≠ "" then pfxArg ++ "." ++ s else s)) kwargs name)
  | v => .ok (.patternNode regex v kwargs name)


/-! ### Observers and concrete instances used in closed statements -/

/-- Did the call complete without an exception? -/
def isOkB : Except String Unit → Bool
  | .ok _ => true
  | .error _ => false

/-- An anonymous (non-namespaced) child resolver whose thread-local
`populating` flag is set (a build of it is in progress further up the
call stack) and whose tables are still empty. -/
def cexChild : URLPattern :=
  .res false "^sub/".data none none [] [] ⟨true, false, [], [], [], []⟩

/-- A parent resolver holding `cexChild`: populating it hits the
`KeyError` of the child's `reverse_dict` property mid-build. -/
def cexParent : URLPattern :=
  .res false "^/".data none none [] [cexChild] emptySt

/-- A named sample leaf: `url_sites(r'^user/$', views.profile,
name='profile')`. -/
def wLeaf : URLPattern :=
  .pat "^user/$".data "views.profile" "views.profile" (some "profile") []

/-- A later-declared sample leaf that reuses the name `profile`. -/
def wLeafB : URLPattern :=
  .pat "^home/$".data "views.home" "views.home" (some "profile") []

/-- The reverse multimap a resolver with the single child `wLeaf` stores
for one prefix: the entry under the callback, then under the name. -/
def wTable : MVD :=
  [("views.profile", [⟨[("user/$".data, [])], "user/$".data, []⟩]),
   ("profile", [⟨[("user/$".data, [])], "user/$".data, []⟩])]

/-- Sample `Site` rows sharing the subdomain `store`: the younger row has
no domain, the older row has one. -/
def siteA : SiteRec := ⟨2, "store", none⟩

def siteB : SiteRec := ⟨1, "store", some "x.com"⟩

def wSites : List SiteRec := [siteA, siteB]


/-! ## Lemmas: dictionary primitives -/

theorem dictLookup_dictInsert_self {α : Type} (d : List (String × α))
    (k : String) (v : α) : dictLookup (dictInsert d k v) k = some v := by
  induction d with
  | nil => simp [dictInsert, dictLookup]
  | cons kv rest ih =>
      obtain ⟨k0, v0⟩ := kv
      by_cases h : k0 = k
      · subst h; simp [dictInsert, dictLookup]
      · simp [dictInsert, dictLookup, h, ih]

theorem dictLookup_dictInsert_ne {α : Type} (d : List (String × α))
    (k k' : String) (v : α) (h : k' ≠ k) :
    dictLookup (dictInsert d k v) k' = dictLookup d k' := by
  induction d with
  | nil => simp [dictInsert, dictLookup, Ne.symm h]
  | cons kv rest ih =>
      obtain ⟨k0, v0⟩ := kv
      by_cases h0 : k0 = k
      · subst h0; simp [dictInsert, dictLookup, Ne.symm h]
      · by_cases h1 : k0 = k'
        · subst h1; simp [dictInsert, dictLookup, h0]
        · simp [dictInsert, dictLookup, h0, h1, ih]

theorem dictLookup_appendlist_self (m : MVD) (k : String) (v : RevEntry) :
    dictLookup (appendlist m k v) k
      = some ((dictLookup m k).getD [] ++ [v]) := by
  induction m with
  | nil => simp [appendlist, dictLookup]
  | cons kv rest ih =>
      obtain ⟨k0, vs⟩ := kv
      by_cases h : k0 = k
      · subst h; simp [appendlist, dictLookup]
      · simp [appendlist, dictLookup, h, ih]

theorem dictLookup_appendlist_ne (m : MVD) (k k' : String) (v : RevEntry)
    (h : k' ≠ k) : dictLookup (appendlist m k v) k' = dictLookup m k' := by
  induction m with
  | nil => simp [appendlist, dictLookup, Ne.symm h]
  | cons kv rest ih =>
      obtain ⟨k0, vs⟩ := kv
      by_cases h0 : k0 = k
      · subst h0; simp [appendlist, dictLookup, Ne.symm h]
      · by_cases h1 : k0 = k'
        · subst h1; simp [appendlist, dictLookup, h0]
        · simp [appendlist, dictLookup, h0, h1, ih]

theorem getlist_appendlist_self (m : MVD) (k : String) (v : RevEntry) :
    getlist (appendlist m k v) k = getlist m k ++ [v] := by
  simp [getlist, dictLookup_appendlist_self]

theorem getlist_appendlist_ne (m : MVD) (k k' : String) (v : RevEntry)
    (h : k' ≠ k) : getlist (appendlist m k v) k' = getlist m k' := by
  simp [getlist, dictLookup_appendlist_ne m k k' v h]

theorem mem_getlist_appendlist {x : RevEntry} (m : MVD) (k k' : String)
    (v : RevEntry) (h : x ∈ getlist m k') :
    x ∈ getlist (appendlist m k v) k' := by
  by_cases hk : k' = k
  · subst hk
    rw [getlist_appendlist_self]
    exact List.mem_append_left _ h
  · rw [getlist_appendlist_ne m k k' v hk]
    exact h

theorem self_mem_getlist_appendlist (m : MVD) (k : String) (v : RevEntry) :
    v ∈ getlist (appendlist m k v) k := by
  rw [getlist_appendlist_self]
  exact List.mem_append_right _ (List.mem_singleton.mpr rfl)

/-! ## Lemmas: unfolding one guarded `_populate` call -/

/-- Definitional unfolding of `populate` on a resolver whose `populating`
flag is clear: the walk runs, then either the three tables are stored and
the flag is cleared, or the exception propagates with the flag left set. -/
theorem populate_succ_res_unfold (n : Nat) (site : Option SiteCtx)
    (isSite : Bool) (rx : List Char) (ns app : Option String)
    (dkw : List (String × String)) (ch : List URLPattern) (p2 : Bool)
    (rd : List (String × MVD)) (nd : List (String × NsDict))
    (ad : List (String × AppDict)) (cbs : List String) :
    populate (n + 1) site
        (.res isSite rx ns app dkw ch ⟨false, p2, rd, nd, ad, cbs⟩)
      = (match ((ch.reverse).foldl (childStep site fun c => populate n site c)
            ⟨[], cbs, Except.ok ([], [], [])⟩).body with
         | .ok (lk, nss, apps) =>
            (.res isSite rx ns app dkw
              ((ch.reverse).foldl (childStep site fun c => populate n site c)
                ⟨[], cbs, Except.ok ([], [], [])⟩).done
              ⟨false, true, dictInsert rd (getPathPfx site) lk,
                dictInsert nd (getPathPfx site) nss,
                dictInsert ad (getPathPfx site) apps,
                ((ch.reverse).foldl (childStep site fun c => populate n site c)
                  ⟨[], cbs, Except.ok ([], [], [])⟩).cbs⟩,
             Except.ok ())
         | .error e =>
            (.res isSite rx ns app dkw
              ((ch.reverse).foldl (childStep site fun c => populate n site c)
                ⟨[], cbs, Except.ok ([], [], [])⟩).done
              ⟨true, p2, rd, nd, ad,
                ((ch.reverse).foldl (childStep site fun c => populate n site c)
                  ⟨[], cbs, Except.ok ([], [], [])⟩).cbs⟩,
             Except.error e)) := rfl

/-! ## C1 -/

/-- **C1.** A call of `_populate` on a resolver whose thread-local
`populating` flag is already set returns immediately (line 64-65), with
no exception and with the resolver — in particular its reverse,
namespace and app tables — completely unchanged, so a re-entrant
population terminates at once and cannot recurse. -/
theorem populate_reentrant_guard (n : Nat) (site : Option SiteCtx)
    (isSite : Bool) (rx : List Char) (ns app : Option String)
    (dkw : List (String × String)) (ch : List URLPattern) (p2 : Bool)
    (rd : List (String × MVD)) (nd : List (String × NsDict))
    (ad : List (String × AppDict)) (cbs : List String) :
    populate (n + 1) site
        (.res isSite rx ns app dkw ch ⟨true, p2, rd, nd, ad, cbs⟩)
      = (.res isSite rx ns app dkw ch ⟨true, p2, rd, nd, ad, cbs⟩,
         Except.ok ()) := rfl

/-! ## C2 -/

/-- **C2, counterexample.**  `_populate` has no `try/finally`: populating
`cexParent` (whose own flag is clear, so the guard is passed and the flag
is set at line 66) hits the `KeyError` raised by the `reverse_dict`
property of its mid-build child, and the exception exits `_populate` with
the parent's `populating` flag still `true` — the acquire/release pair
*is* skipped on this error path. -/
theorem populate_error_flag_cex :
    (stOf cexParent).populating = false
    ∧ isOkB (populate 5 none cexParent).2 = false
    ∧ (stOf (populate 5 none cexParent).1).populating = true := by
  refine ⟨rfl, rfl, rfl⟩

/-- **C2, amended.**  For every execution of `_populate` that passes the
re-entrancy guard and sets the thread-local flag, the flag is `false` on
exit exactly when the build completed normally; on an error exit (an
exception propagating out of the walk) it remains `true`. -/
theorem populate_flag_reset_iff_ok (n : Nat) (site : Option SiteCtx)
    (isSite : Bool) (rx : List Char) (ns app : Option String)
    (dkw : List (String × String)) (ch : List URLPattern) (p2 : Bool)
    (rd : List (String × MVD)) (nd : List (String × NsDict))
    (ad : List (String × AppDict)) (cbs : List String) :
    (stOf (populate (n + 1) site
        (.res isSite rx ns app dkw ch ⟨false, p2, rd, nd, ad, cbs⟩)).1).populating
      = !isOkB (populate (n + 1) site
        (.res isSite rx ns app dkw ch ⟨false, p2, rd, nd, ad, cbs⟩)).2 := by
  rw [populate_succ_res_unfold]
  rcases ((ch.reverse).foldl (childStep site fun c => populate n site c)
      ⟨[], cbs, Except.ok ([], [], [])⟩).body with e | v
  · rfl
  · obtain ⟨lk, nss, apps⟩ := v
    rfl

/-! ## C6 -/

/-- **C6.** With no active tenant, or an active site whose `path_prefix`
is empty, the derived prefix is the sentinel `"_"` and the site
resolver's dynamic regex is `'^'` (which matches the empty string); for
every other derived prefix `p` the regex is `'^p/'`. -/
theorem sentinel_and_tenant_regex :
    (getPathPfx none = "_" ∧ siteRegexPattern none = ['^'])
    ∧ (∀ s : SiteCtx, s.pathPfx = "" →
        getPathPfx (some s) = "_" ∧ siteRegexPattern (some s) = ['^'])
    ∧ (∀ p : String, p ≠ "" → p ≠ "_" →
        getPathPfx (some ⟨p⟩) = p
        ∧ siteRegexPattern (some ⟨p⟩) = '^' :: (p.data ++ ['/'])) := by
  refine ⟨⟨rfl, rfl⟩, ?_, ?_⟩
  · intro s hs
    obtain ⟨ps⟩ := s
    cases hs
    exact ⟨rfl, rfl⟩
  · intro p h1 h2
    have hpx : getPathPfx (some ⟨p⟩) = p := by simp [getPathPfx, h1]
    refine ⟨hpx, ?_⟩
    simp [siteRegexPattern, hpx, h2]

/-- Witness for `sentinel_and_tenant_regex` at the tenant prefix
`"acme"`. -/
theorem sentinel_and_tenant_regex_witness :
    getPathPfx (some ⟨"acme"⟩) = "acme"
    ∧ siteRegexPattern (some ⟨"acme"⟩) = '^' :: ("acme".data ++ ['/']) :=
  sentinel_and_tenant_regex.2.2 "acme" (by decide) (by decide)

/-! ## C7 -/

/-- **C7.** Evaluating any of the three table accessor properties while
the thread-local `populating` flag is set and the current prefix has no
cached entry in the corresponding dict: the triggered `_populate`
no-ops (guard, lines 64-65), so the final indexing raises `KeyError`
instead of returning a table, and the resolver is left unchanged. -/
theorem accessor_keyerror_when_populating (n : Nat) (site : Option SiteCtx)
    (isSite : Bool) (rx : List Char) (ns app : Option String)
    (dkw : List (String × String)) (ch : List URLPattern) (p2 : Bool)
    (rd : List (String × MVD)) (nd : List (String × NsDict))
    (ad : List (String × AppDict)) (cbs : List String)
    (h1 : dictLookup rd (getPathPfx site) = none)
    (h2 : dictLookup nd (getPathPfx site) = none)
    (h3 : dictLookup ad (getPathPfx site) = none) :
    reverseDictAcc (n + 1) site
        (.res isSite rx ns app dkw ch ⟨true, p2, rd, nd, ad, cbs⟩)
      = (.res isSite rx ns app dkw ch ⟨true, p2, rd, nd, ad, cbs⟩,
         Except.error ("KeyError: " ++ getPathPfx site))
    ∧ namespaceDictAcc (n + 1) site
        (.res isSite rx ns app dkw ch ⟨true, p2, rd, nd, ad, cbs⟩)
      = (.res isSite rx ns app dkw ch ⟨true, p2, rd, nd, ad, cbs⟩,
         Except.error ("KeyError: " ++ getPathPfx site))
    ∧ appDictAcc (n + 1) site
        (.res isSite rx ns app dkw ch ⟨true, p2, rd, nd, ad, cbs⟩)
      = (.res isSite rx ns app dkw ch ⟨true, p2, rd, nd, ad, cbs⟩,
         Except.error ("KeyError: " ++ getPathPfx site)) := by
  refine ⟨?_, ?_, ?_⟩
  · simp [reverseDictAcc, populate, stOf, h1]
  · simp [namespaceDictAcc, populate, stOf, h2]
  · simp [appDictAcc, populate, stOf, h3]

/-- Witness for `accessor_keyerror_when_populating`: the mid-build,
empty-tabled resolver `cexChild` under the sentinel prefix. -/
theorem accessor_keyerror_when_populating_witness :
    reverseDictAcc 1 none cexChild
      = (cexChild, Except.error ("KeyError: " ++ getPathPfx none))
    ∧ namespaceDictAcc 1 none cexChild
      = (cexChild, Except.error ("KeyError: " ++ getPathPfx none))
    ∧ appDictAcc 1 none cexChild
      = (cexChild, Except.error ("KeyError: " ++ getPathPfx none)) :=
  accessor_keyerror_when_populating 0 none false "^sub/".data none none []
    [] false [] [] [] [] rfl rfl rfl


/-! ## Lemmas: the walk on leaf-only child lists -/

theorem pushRev_eq (ls : List URLPattern) (d : List URLPattern) :
    pushRev ls d = ls.reverse ++ d := by
  induction ls generalizing d with
  | nil => simp [pushRev]
  | cons c rest ih =>
      have hc : pushRev (c :: rest) d = pushRev rest (c :: d) := rfl
      rw [hc, ih (c :: d)]
      simp

theorem foldlLeaves_eq (site : Option SiteCtx)
    (pop : URLPattern → URLPattern × Except String Unit)
    (ls : List URLPattern) (done : List URLPattern) (cbs : List String)
    (lk : MVD) (nss : NsDict) (apps : AppDict)
    (h : ∀ c ∈ ls, isLeaf c = true) :
    ls.foldl (childStep site pop) ⟨done, cbs, Except.ok (lk, nss, apps)⟩
      = ⟨pushRev ls done, leafCbsF cbs ls,
         Except.ok (leafLkF lk ls, nss, apps)⟩ := by
  induction ls generalizing done cbs lk with
  | nil => rfl
  | cons c rest ih =>
      cases c with
      | pat rx lsr cb nm df =>
          rw [List.foldl_cons]
          have hstep : childStep site pop ⟨done, cbs, Except.ok (lk, nss, apps)⟩
              (.pat rx lsr cb nm df)
              = ⟨(URLPattern.pat rx lsr cb nm df) :: done, setAdd cbs lsr,
                 Except.ok (appendLeaf lk (.pat rx lsr cb nm df), nss, apps)⟩ := rfl
          rw [hstep, ih _ _ _ (fun c hc => h c (List.mem_cons_of_mem _ hc))]
          rfl
      | res a b cns d e f g =>
          have hres := h _ (List.mem_cons_self _ _)
          simp [isLeaf] at hres

/-- One completed `_populate` of a resolver whose children are all leaf
patterns: the walk stores the leaves in reverse declaration order under
the current prefix and resets the flag (`leafPopState`). -/
theorem populate_leafres (n : Nat) (site : Option SiteCtx) (isSite : Bool)
    (rx : List Char) (ns app : Option String) (dkw : List (String × String))
    (leaves : List URLPattern) (p2 : Bool) (rd : List (String × MVD))
    (nd : List (String × NsDict)) (ad : List (String × AppDict))
    (cbs : List String) (h : ∀ c ∈ leaves, isLeaf c = true) :
    populate (n + 1) site
        (.res isSite rx ns app dkw leaves ⟨false, p2, rd, nd, ad, cbs⟩)
      = (.res isSite rx ns app dkw leaves
          (leafPopState (getPathPfx site) ⟨false, p2, rd, nd, ad, cbs⟩ leaves),
         Except.ok ()) := by
  rw [populate_succ_res_unfold,
    foldlLeaves_eq site _ leaves.reverse [] cbs [] [] []
      (fun c hc => h c (List.mem_reverse.mp hc)),
    pushRev_eq]
  simp [leafPopState, leafLookups, allLeafCbs]

/-! ## C3 -/

/-- **C3.** Once an evaluation of the `reverse_dict` property has
succeeded — so the table for the active prefix is cached — any further
evaluation under the same active site returns the very same table and
leaves the resolver untouched (no rebuild): the accessor is idempotent,
for any fuel, because the cached key short-circuits `_populate`. -/
theorem reverse_dict_idempotent (n m : Nat) (site : Option SiteCtx)
    (r r1 : URLPattern) (t : MVD)
    (h : reverseDictAcc n site r = (r1, Except.ok t)) :
    reverseDictAcc m site r1 = (r1, Except.ok t) := by
  have hkey : dictLookup (stOf r1).reverseD (getPathPfx site) = some t := by
    simp only [reverseDictAcc] at h
    rcases hstep : (if (dictLookup (stOf r).reverseD (getPathPfx site)).isNone
        then populate n site r else (r, Except.ok ())) with ⟨ra, ex⟩
    rw [hstep] at h
    cases ex with
    | error e => simp at h
    | ok u =>
        have hm : (match dictLookup (stOf ra).reverseD (getPathPfx site) with
            | some tt => (ra, Except.ok tt)
            | none => (ra, Except.error ("KeyError: " ++ getPathPfx site)))
            = (r1, Except.ok t) := h
        rcases hl : dictLookup (stOf ra).reverseD (getPathPfx site) with _ | t'
        · rw [hl] at hm
          simp at hm
        · rw [hl] at hm
          simp at hm
          obtain ⟨hr, ht⟩ := hm
          rw [← hr, hl, ht]
  simp only [reverseDictAcc]
  rw [hkey]
  simp [hkey]

/-- Witness for `reverse_dict_idempotent`: a `site_patterns` resolver
holding `wLeaf`, built under the sentinel prefix; the second evaluation
returns the cached `wTable` even with zero fuel. -/
theorem reverse_dict_idempotent_witness :
    reverseDictAcc 0 none (reverseDictAcc 2 none (mkSite [wLeaf])).1
      = ((reverseDictAcc 2 none (mkSite [wLeaf])).1, Except.ok wTable) :=
  reverse_dict_idempotent 2 0 none (mkSite [wLeaf])
    (reverseDictAcc 2 none (mkSite [wLeaf])).1 wTable (by rfl)

/-! ## C5 -/

/-- **C5.** `_populate` walks the children in reverse declaration order
(line 71), so when two leaf patterns declare the same name the entry of
the later-declared pattern sits in front of the earlier one in the value
list under that name — reverse lookups, which take the first satisfiable
candidate, therefore prefer the last-declared pattern.  (The callbacks
are Python callables, distinct from any name string, whence the two
disequality hypotheses.) -/
theorem last_declared_wins (n : Nat) (site : Option SiteCtx)
    (isSite : Bool) (rx : List Char) (ns app : Option String)
    (dkw : List (String × String)) (p2 : Bool) (rd : List (String × MVD))
    (nd : List (String × NsDict)) (ad : List (String × AppDict))
    (cbs : List String) (rx1 rx2 : List Char) (ls1 ls2 cb1 cb2 nm : String)
    (d1 d2 : List (String × String)) (h1 : cb1 ≠ nm) (h2 : cb2 ≠ nm) :
    ∃ tbl : MVD,
      dictLookup (stOf (populate (n + 1) site
          (.res isSite rx ns app dkw
            [.pat rx1 ls1 cb1 (some nm) d1, .pat rx2 ls2 cb2 (some nm) d2]
            ⟨false, p2, rd, nd, ad, cbs⟩)).1).reverseD (getPathPfx site)
        = some tbl
      ∧ getlist tbl nm
        = [⟨normalize (stripCaret rx2), stripCaret rx2, d2⟩,
           ⟨normalize (stripCaret rx1), stripCaret rx1, d1⟩] := by
  rw [populate_leafres n site isSite rx ns app dkw _ p2 rd nd ad cbs
    (by simp [isLeaf])]
  refine ⟨leafLookups
      [.pat rx1 ls1 cb1 (some nm) d1, .pat rx2 ls2 cb2 (some nm) d2], ?_, ?_⟩
  · exact dictLookup_dictInsert_self _ _ _
  · show getlist
        (appendlist
          (appendlist
            (appendlist
              (appendlist [] cb2 ⟨normalize (stripCaret rx2), stripCaret rx2, d2⟩)
              nm ⟨normalize (stripCaret rx2), stripCaret rx2, d2⟩)
            cb1 ⟨normalize (stripCaret rx1), stripCaret rx1, d1⟩)
          nm ⟨normalize (stripCaret rx1), stripCaret rx1, d1⟩) nm = _
    rw [getlist_appendlist_self, getlist_appendlist_ne _ cb1 nm _ (Ne.symm h1),
      getlist_appendlist_self, getlist_appendlist_ne _ cb2 nm _ (Ne.symm h2)]
    rfl

/-- Witness for `last_declared_wins`: `wLeaf` then `wLeafB`, both named
`profile`; the table lists `wLeafB`'s entry first. -/
theorem last_declared_wins_witness :
    ∃ tbl : MVD,
      dictLookup (stOf (populate 1 none
          (.res false [] none none []
            [.pat "^user/$".data "views.profile" "views.profile"
              (some "profile") [],
             .pat "^home/$".data "views.home" "views.home"
              (some "profile") []]
            ⟨false, false, [], [], [], []⟩)).1).reverseD (getPathPfx none)
        = some tbl
      ∧ getlist tbl "profile"
        = [⟨normalize (stripCaret "^home/$".data), stripCaret "^home/$".data, []⟩,
           ⟨normalize (stripCaret "^user/$".data), stripCaret "^user/$".data, []⟩] :=
  last_declared_wins 0 none false [] none none [] false [] [] [] []
    "^user/$".data "^home/$".data "views.profile" "views.home"
    "views.profile" "views.home" "profile" [] []
    (by decide) (by decide)


/-! ## C9 -/

/-- **C9.** Domain validation: any value containing one of the
`string.whitespace` characters (space, tab, newline, carriage return,
vertical tab, form feed) fails validation; any non-empty value in which
the DNS-label pattern finds no match fails validation; and on the
spec's three samples, `example.com` is accepted while `exa mple.com`
(whitespace) and `example` (no dot-separated second segment) are
rejected. -/
theorem domain_validation_spec :
    (∀ v : String, (∃ c ∈ stringWhitespace, c ∈ v.data) →
        validateDomain v = false)
    ∧ (∀ v : String, v ≠ "" → searchDomain v.data = false →
        validateDomain v = false)
    ∧ validateDomain "example.com" = true
    ∧ validateDomain "exa mple.com" = false
    ∧ validateDomain "example" = false := by
  refine ⟨?_, ?_, by decide, by decide, by decide⟩
  · rintro v ⟨c, hc, hcv⟩
    have hne : v ≠ "" := by
      intro he
      subst he
      simp at hcv
    have hdnv : domain_name_validator v = false := by
      simp only [domain_name_validator, if_neg hne, Bool.not_eq_false']
      rw [List.any_eq_true]
      exact ⟨c, hc, List.elem_eq_true_of_mem hcv⟩
    simp [validateDomain, if_neg hne, hdnv]
  · intro v hne hsearch
    simp [validateDomain, if_neg hne, regexSearchOk, hsearch]

/-- Witness for `domain_validation_spec`: the space character inside
`exa mple.com`, and the dot-free `example`. -/
theorem domain_validation_spec_witness :
    validateDomain "exa mple.com" = false
    ∧ validateDomain "example" = false :=
  ⟨domain_validation_spec.1 "exa mple.com" ⟨' ', by decide, by decide⟩,
   domain_validation_spec.2.1 "example" (by decide) (by decide)⟩

/-! ## C10 -/

/-- **C10, counterexample.** The legacy fallback `url_sites` (lines
198-215, the variant active when `django.urls.resolvers.RegexPattern`
cannot be imported) does *not* raise a configuration error for a missing
view reference: called with `view = None` it silently builds and returns
a pattern node, because only string views are checked for emptiness and
no callability check exists in that variant. -/
theorem url_sites_compat_none_view_cex :
    url_sites_compat "^app/" ViewArg.vnone none none ""
      = Except.ok (UrlNode.patternNode "^app/" ViewArg.vnone none none) := rfl

/-- **C10, amended.** The modern `url_sites` (lines 173-195) raises
`ImproperlyConfigured` for every falsy view, raises `TypeError` for
every truthy view that is neither a callable nor a list/tuple, and
returns a pattern node for a callable and a resolver node for an
`include(...)` triple.  The legacy fallback checks only string views:
it raises `ImproperlyConfigured` for the empty string view and builds a
node for every other non-tuple view, with no type check. -/
theorem url_sites_fail_fast (regex : String) (view : ViewArg)
    (kwargs : Option (List (String × String))) (name : Option String) :
    (truthyView view = false →
      url_sites regex view kwargs name
        = Except.error (UrlError.improperlyConfigured
            ("Empty URL pattern view name not permitted (for pattern "
              ++ regex ++ ")")))
    ∧ (truthyView view = true → isCallableV view = false →
        isListTupleV view = false →
      url_sites regex view kwargs name
        = Except.error (UrlError.typeError
            "view must be a callable or a list/tuple in the case of include()."))
    ∧ (∀ f, view = .vcallable f →
      url_sites regex view kwargs name
        = Except.ok (.patternNode regex (.vcallable f) kwargs name))
    ∧ (∀ m a ns2, view = .vtuple [m, a, ns2] →
      url_sites regex view kwargs name
        = Except.ok (.resolverNode regex m kwargs (some a) (some ns2)))
    ∧ (∀ str, str ≠ "" → url_sites_compat regex (.vstr str) kwargs name ""
        = Except.ok (.patternNode regex (.vstr str) kwargs name))
    ∧ url_sites_compat regex (.vstr "") kwargs name ""
        = Except.error (UrlError.improperlyConfigured
            ("Empty URL pattern view name not permitted (for pattern "
              ++ regex ++ ")")) := by
  refine ⟨?_, ?_, ?_, ?_, ?_, ?_⟩
  · intro h
    simp [url_sites, h]
  · intro ht hc hl
    cases view with
    | vtuple es => simp [isListTupleV] at hl
    | vcallable f => simp [isCallableV] at hc
    | vstr str => simp [url_sites, ht]
    | vnone => simp [truthyView] at ht
  · intro f hf
    subst hf
    simp [url_sites, truthyView]
  · intro m a ns2 hv
    subst hv
    simp [url_sites, truthyView]
  · intro str hs
    simp [url_sites_compat, hs]
  · simp [url_sites_compat]

/-- Witness for `url_sites_fail_fast`: the modern builder fails fast on
`view = None` and on a (truthy) string view. -/
theorem url_sites_fail_fast_witness :
    url_sites "^a/" ViewArg.vnone none none
      = Except.error (UrlError.improperlyConfigured
          ("Empty URL pattern view name not permitted (for pattern "
            ++ "^a/" ++ ")"))
    ∧ url_sites "^a/" (ViewArg.vstr "views.home") none none
      = Except.error (UrlError.typeError
          "view must be a callable or a list/tuple in the case of include().") :=
  ⟨(url_sites_fail_fast "^a/" ViewArg.vnone none none).1 rfl,
   (url_sites_fail_fast "^a/" (ViewArg.vstr "views.home") none none).2.1
     rfl rfl rfl⟩


/-! ## Lemmas: the `(domain, pk)` ordering of `get_site_or_none` -/

theorem chEq_of_toNat_eq (a b : Char) (h : a.toNat = b.toNat) : a = b := by
  rw [← Char.ofNat_toNat a, ← Char.ofNat_toNat b, h]

theorem strEq_of_data (a b : String) (h : a.data = b.data) : a = b := by
  cases a
  cases b
  exact congrArg String.mk h

theorem strLtB_irrefl : ∀ l : List Char, strLtB l l = false := by
  intro l
  induction l with
  | nil => rfl
  | cons a as ih =>
      simp only [strLtB]
      rw [if_neg (by simp [chLt]), if_neg (by simp [chLt])]
      exact ih

theorem strLtB_trans (a : List Char) : ∀ b c : List Char,
    strLtB a b = true → strLtB b c = true → strLtB a c = true := by
  induction a with
  | nil =>
      intro b c h1 h2
      cases c with
      | nil =>
          cases b with
          | nil => exact h1
          | cons b0 bs => simp [strLtB] at h2
      | cons c0 cs => simp [strLtB]
  | cons a0 as ih =>
      intro b c h1 h2
      cases b with
      | nil => simp [strLtB] at h1
      | cons b0 bs =>
          cases c with
          | nil => simp [strLtB] at h2
          | cons c0 cs =>
              simp only [strLtB] at h1 h2 ⊢
              by_cases hab : chLt a0 b0 = true
              · by_cases hbc : chLt b0 c0 = true
                · rw [if_pos (show chLt a0 c0 = true by
                    simp [chLt] at hab hbc ⊢
                    omega)]
                · rw [if_neg hbc] at h2
                  by_cases hcb : chLt c0 b0 = true
                  · rw [if_pos hcb] at h2
                    exact absurd h2 (by simp)
                  · rw [if_neg hcb] at h2
                    rw [if_pos (show chLt a0 c0 = true by
                      simp [chLt] at hab hbc hcb ⊢
                      omega)]
              · rw [if_neg hab] at h1
                by_cases hba : chLt b0 a0 = true
                · rw [if_pos hba] at h1
                  exact absurd h1 (by simp)
                · rw [if_neg hba] at h1
                  by_cases hbc : chLt b0 c0 = true
                  · rw [if_pos (show chLt a0 c0 = true by
                      simp [chLt] at hab hba hbc ⊢
                      omega)]
                  · rw [if_neg hbc] at h2
                    by_cases hcb : chLt c0 b0 = true
                    · rw [if_pos hcb] at h2
                      exact absurd h2 (by simp)
                    · rw [if_neg hcb] at h2
                      rw [if_neg (show ¬ chLt a0 c0 = true by
                          simp [chLt] at hab hba hbc hcb ⊢
                          omega),
                        if_neg (show ¬ chLt c0 a0 = true by
                          simp [chLt] at hab hba hbc hcb ⊢
                          omega)]
                      exact ih bs cs h1 h2

theorem strLtB_neg_trans (a : List Char) : ∀ b c : List Char,
    strLtB a b = false → strLtB b c = false → strLtB a c = false := by
  induction a with
  | nil =>
      intro b c h1 h2
      cases c with
      | nil => rfl
      | cons c0 cs =>
          cases b with
          | nil => exact absurd h2 (by simp [strLtB])
          | cons b0 bs => exact absurd h1 (by simp [strLtB])
  | cons a0 as ih =>
      intro b c h1 h2
      cases c with
      | nil => rfl
      | cons c0 cs =>
          cases b with
          | nil => exact absurd h2 (by simp [strLtB])
          | cons b0 bs =>
              simp only [strLtB] at h1 h2 ⊢
              by_cases hab : chLt a0 b0 = true
              · rw [if_pos hab] at h1
                exact absurd h1 (by simp)
              · rw [if_neg hab] at h1
                by_cases hbc : chLt b0 c0 = true
                · rw [if_pos hbc] at h2
                  exact absurd h2 (by simp)
                · rw [if_neg hbc] at h2
                  rw [if_neg (show ¬ chLt a0 c0 = true by
                    simp [chLt] at hab hbc ⊢
                    omega)]
                  by_cases hba : chLt b0 a0 = true
                  · rw [if_pos (show chLt c0 a0 = true by
                      simp [chLt] at hab hbc hba ⊢
                      omega)]
                  · rw [if_neg hba] at h1
                    by_cases hcb : chLt c0 b0 = true
                    · rw [if_pos (show chLt c0 a0 = true by
                        simp [chLt] at hab hbc hba hcb ⊢
                        omega)]
                    · rw [if_neg hcb] at h2
                      by_cases hca : chLt c0 a0 = true
                      · rw [if_pos hca]
                      · rw [if_neg hca]
                        exact ih bs cs h1 h2

theorem strLtB_eq_of_not_lt (a : List Char) : ∀ b : List Char,
    strLtB a b = false → strLtB b a = false → a = b := by
  induction a with
  | nil =>
      intro b h1 _
      cases b with
      | nil => rfl
      | cons b0 bs => exact absurd h1 (by simp [strLtB])
  | cons a0 as ih =>
      intro b h1 h2
      cases b with
      | nil => exact absurd h2 (by simp [strLtB])
      | cons b0 bs =>
          simp only [strLtB] at h1 h2
          by_cases hab : chLt a0 b0 = true
          · rw [if_pos hab] at h1
            exact absurd h1 (by simp)
          · rw [if_neg hab] at h1
            by_cases hba : chLt b0 a0 = true
            · rw [if_pos hba] at h2
              exact absurd h2 (by simp)
            · rw [if_neg hba] at h1
              rw [if_neg hba, if_neg hab] at h2
              have hhd : a0 = b0 := by
                apply chEq_of_toNat_eq
                simp [chLt] at hab hba
                omega
              rw [hhd, ih bs h1 h2]

theorem domLtB_trans : ∀ d1 d2 d3 : Option String,
    domLtB d1 d2 = true → domLtB d2 d3 = true → domLtB d1 d3 = true := by
  intro d1 d2 d3 h1 h2
  cases d1 with
  | none =>
      cases d2 with
      | none => exact absurd h1 (by simp [domLtB])
      | some bb =>
          cases d3 with
          | none => exact absurd h2 (by simp [domLtB])
          | some cc => simp [domLtB]
  | some aa =>
      cases d2 with
      | none => exact absurd h1 (by simp [domLtB])
      | some bb =>
          cases d3 with
          | none => exact absurd h2 (by simp [domLtB])
          | some cc =>
              simp only [domLtB] at h1 h2 ⊢
              exact strLtB_trans _ _ _ h1 h2

theorem domLtB_neg_trans : ∀ d1 d2 d3 : Option String,
    domLtB d1 d2 = false → domLtB d2 d3 = false → domLtB d1 d3 = false := by
  intro d1 d2 d3 h1 h2
  cases d1 with
  | none =>
      cases d3 with
      | none => rfl
      | some cc =>
          cases d2 with
          | none => exact absurd h2 (by simp [domLtB])
          | some bb => exact absurd h1 (by simp [domLtB])
  | some aa =>
      cases d3 with
      | none => rfl
      | some cc =>
          cases d2 with
          | none => exact absurd h2 (by simp [domLtB])
          | some bb =>
              simp only [domLtB] at h1 h2 ⊢
              exact strLtB_neg_trans _ _ _ h1 h2

theorem domLtB_eq_of_not_lt : ∀ d1 d2 : Option String,
    domLtB d1 d2 = false → domLtB d2 d1 = false → d1 = d2 := by
  intro d1 d2 h1 h2
  cases d1 with
  | none =>
      cases d2 with
      | none => rfl
      | some bb => exact absurd h1 (by simp [domLtB])
  | some aa =>
      cases d2 with
      | none => exact absurd h2 (by simp [domLtB])
      | some bb =>
          simp only [domLtB] at h1 h2
          rw [strEq_of_data aa bb (strLtB_eq_of_not_lt _ _ h1 h2)]

theorem siteLt_irrefl (a : SiteRec) : siteLt a a = false := by
  cases h : a.domain with
  | none => simp [siteLt, h, domLtB, Nat.lt_irrefl]
  | some d => simp [siteLt, h, domLtB, strLtB_irrefl, Nat.lt_irrefl]

theorem siteLt_trans (a b c : SiteRec) (h1 : siteLt a b = true)
    (h2 : siteLt b c = true) : siteLt a c = true := by
  simp only [siteLt, Bool.or_eq_true, Bool.and_eq_true,
    decide_eq_true_eq] at h1 h2 ⊢
  rcases h1 with h1 | ⟨h1e, h1p⟩ <;> rcases h2 with h2 | ⟨h2e, h2p⟩
  · exact Or.inl (domLtB_trans _ _ _ h1 h2)
  · exact Or.inl (by rw [← h2e]; exact h1)
  · exact Or.inl (by rw [h1e]; exact h2)
  · exact Or.inr ⟨h1e.trans h2e, Nat.lt_trans h1p h2p⟩

theorem siteLt_neg_trans (a b c : SiteRec) (h1 : siteLt a b = false)
    (h2 : siteLt b c = false) : siteLt a c = false := by
  have h1n : ¬ (domLtB a.domain b.domain = true
      ∨ (a.domain = b.domain ∧ a.pk < b.pk)) := by
    intro hcon
    have hx : siteLt a b = true := by
      simp only [siteLt, Bool.or_eq_true, Bool.and_eq_true, decide_eq_true_eq]
      exact hcon
    rw [hx] at h1
    exact Bool.noConfusion h1
  have h2n : ¬ (domLtB b.domain c.domain = true
      ∨ (b.domain = c.domain ∧ b.pk < c.pk)) := by
    intro hcon
    have hx : siteLt b c = true := by
      simp only [siteLt, Bool.or_eq_true, Bool.and_eq_true, decide_eq_true_eq]
      exact hcon
    rw [hx] at h2
    exact Bool.noConfusion h2
  cases hac : siteLt a c with
  | false => rfl
  | true =>
      exfalso
      have hac' : domLtB a.domain c.domain = true
          ∨ (a.domain = c.domain ∧ a.pk < c.pk) := by
        simpa only [siteLt, Bool.or_eq_true, Bool.and_eq_true,
          decide_eq_true_eq] using hac
      have hd1 : domLtB a.domain b.domain = false := by
        cases hq : domLtB a.domain b.domain
        · rfl
        · exact absurd (Or.inl hq) h1n
      have hd2 : domLtB b.domain c.domain = false := by
        cases hq : domLtB b.domain c.domain
        · rfl
        · exact absurd (Or.inl hq) h2n
      rcases hac' with hdom | ⟨hde, hplt⟩
      · have hx := domLtB_neg_trans a.domain b.domain c.domain hd1 hd2
        rw [hdom] at hx
        exact Bool.noConfusion hx
      · have hd2' : domLtB b.domain a.domain = false := by
          rw [hde]
          exact hd2
        have hde1 : a.domain = b.domain := domLtB_eq_of_not_lt _ _ hd1 hd2'
        have hp1 : ¬ a.pk < b.pk := fun hp => h1n (Or.inr ⟨hde1, hp⟩)
        have hp2 : ¬ b.pk < c.pk := fun hp =>
          h2n (Or.inr ⟨hde1.symm.trans hde, hp⟩)
        omega

/-! ## Lemmas: the maximum row selected by `bestOf` -/

theorem bestOf1_mem : ∀ (l : List SiteRec) (b : SiteRec),
    bestOf1 b l = b ∨ bestOf1 b l ∈ l := by
  intro l
  induction l with
  | nil => intro b; exact Or.inl rfl
  | cons s rest ih =>
      intro b
      by_cases h : siteLt b s = true
      · have e : bestOf1 b (s :: rest) = bestOf1 s rest := by simp [bestOf1, h]
        rw [e]
        rcases ih s with h1 | h1
        · right
          rw [h1]
          exact List.mem_cons_self _ _
        · exact Or.inr (List.mem_cons_of_mem _ h1)
      · have e : bestOf1 b (s :: rest) = bestOf1 b rest := by simp [bestOf1, h]
        rw [e]
        rcases ih b with h1 | h1
        · exact Or.inl h1
        · exact Or.inr (List.mem_cons_of_mem _ h1)

theorem bestOf1_not_lt : ∀ (l : List SiteRec) (b x : SiteRec),
    (x = b ∨ x ∈ l) → siteLt (bestOf1 b l) x = false := by
  intro l
  induction l with
  | nil =>
      intro b x hx
      rcases hx with rfl | hx
      · exact siteLt_irrefl x
      · simp at hx
  | cons s rest ih =>
      intro b x hx
      by_cases h : siteLt b s = true
      · have e : bestOf1 b (s :: rest) = bestOf1 s rest := by simp [bestOf1, h]
        rw [e]
        rcases hx with rfl | hx
        · cases hq : siteLt (bestOf1 s rest) x with
          | false => rfl
          | true =>
              exfalso
              have h3 : siteLt (bestOf1 s rest) s = true :=
                siteLt_trans _ _ _ hq h
              have h4 : siteLt (bestOf1 s rest) s = false :=
                ih s s (Or.inl rfl)
              rw [h3] at h4
              exact Bool.noConfusion h4
        · rcases List.mem_cons.mp hx with hxe | hx2
          · rw [hxe]
            exact ih s s (Or.inl rfl)
          · exact ih s x (Or.inr hx2)
      · have hbs : siteLt b s = false := by
          cases hq : siteLt b s
          · rfl
          · exact absurd hq h
        have e : bestOf1 b (s :: rest) = bestOf1 b rest := by simp [bestOf1, h]
        rw [e]
        rcases hx with hxe | hx
        · rw [hxe]
          exact ih b b (Or.inl rfl)
        · rcases List.mem_cons.mp hx with hxe | hx2
          · rw [hxe]
            exact siteLt_neg_trans _ _ _ (ih b b (Or.inl rfl)) hbs
          · exact ih b x (Or.inr hx2)

/-! ## C8 -/

/-- **C8.** `get_site_or_none`: with no record matching the subdomain the
result is `none` (and the function is total — it never raises); when a
result is returned it is one of the matching records, it has a domain
whenever any matching record has one (`order_by('-domain', ...)` puts
rows with a domain first, `NULL` sorting below every string), and among
records with the same domain value it has the largest primary key
(`'-pk'`, the most recently created record). -/
theorem get_site_or_none_spec (sites : List SiteRec) (sub : String) :
    ((∀ s ∈ sites, s.subdomain ≠ sub) → get_site_or_none sites sub = none)
    ∧ (∀ r, get_site_or_none sites sub = some r →
        r ∈ sites ∧ r.subdomain = sub
        ∧ (∀ x ∈ sites, x.subdomain = sub → x.domain.isSome = true →
            r.domain.isSome = true)
        ∧ (∀ x ∈ sites, x.subdomain = sub → x.domain = r.domain →
            x.pk ≤ r.pk)) := by
  constructor
  · intro hall
    have hfil : sites.filter (fun s => decide (s.subdomain = sub)) = [] := by
      rw [List.filter_eq_nil_iff]
      intro a ha
      simp [hall a ha]
    simp [get_site_or_none, hfil, bestOf]
  · intro r hr
    unfold get_site_or_none at hr
    rcases hfil : sites.filter (fun s => decide (s.subdomain = sub))
      with _ | ⟨m, ms⟩
    · rw [hfil] at hr
      exact absurd hr (by simp [bestOf])
    · rw [hfil] at hr
      have hr1 : bestOf1 m ms = r := by simpa [bestOf] using hr
      have hmem : r ∈ m :: ms := by
        rcases bestOf1_mem ms m with h1 | h1
        · rw [← hr1, h1]
          exact List.mem_cons_self _ _
        · rw [← hr1]
          exact List.mem_cons_of_mem _ h1
      have hmemf : r ∈ sites.filter (fun s => decide (s.subdomain = sub)) := by
        rw [hfil]
        exact hmem
      have hrs := List.mem_filter.mp hmemf
      have hrsub : r.subdomain = sub := by simpa using hrs.2
      have hnotlt : ∀ x ∈ sites, x.subdomain = sub → siteLt r x = false := by
        intro x hx hxsub
        have hxf : x ∈ m :: ms := by
          rw [← hfil]
          exact List.mem_filter.mpr ⟨hx, by simp [hxsub]⟩
        rw [← hr1]
        rcases List.mem_cons.mp hxf with h | h
        · exact bestOf1_not_lt ms m x (Or.inl h)
        · exact bestOf1_not_lt ms m x (Or.inr h)
      refine ⟨hrs.1, hrsub, ?_, ?_⟩
      · intro x hx hxsub hxdom
        have hnl := hnotlt x hx hxsub
        rcases hrd : r.domain with _ | dd
        · rcases hxd : x.domain with _ | xd
          · rw [hxd] at hxdom
            simp at hxdom
          · exfalso
            have hgt : siteLt r x = true := by
              simp only [siteLt, Bool.or_eq_true]
              exact Or.inl (by rw [hrd, hxd]; rfl)
            rw [hgt] at hnl
            exact Bool.noConfusion hnl
        · simp
      · intro x hx hxsub hxdom
        have hnl := hnotlt x hx hxsub
        have hcomp : ¬ r.pk < x.pk := by
          intro hp
          have hgt : siteLt r x = true := by
            simp only [siteLt, Bool.or_eq_true, Bool.and_eq_true,
              decide_eq_true_eq]
            exact Or.inr ⟨hxdom.symm, hp⟩
          rw [hgt] at hnl
          exact Bool.noConfusion hnl
        omega

/-- Witness for `get_site_or_none_spec`: among two rows with subdomain
`store`, the older row with an explicit domain (`siteB`) beats the newer
row without one. -/
theorem get_site_or_none_spec_witness :
    get_site_or_none wSites "store" = some siteB
    ∧ siteB ∈ wSites ∧ siteB.subdomain = "store"
    ∧ siteB.domain.isSome = true :=
  ⟨rfl, ((get_site_or_none_spec wSites "store").2 siteB rfl).1,
    ((get_site_or_none_spec wSites "store").2 siteB rfl).2.1,
    ((get_site_or_none_spec wSites "store").2 siteB rfl).2.2.1 siteB
      (List.mem_cons_of_mem _ (List.mem_cons_self _ _)) rfl rfl⟩


/-! ## Lemmas: membership in merged reverse tables -/

theorem kvUpdate_nil (d : List (String × String)) : kvUpdate d [] = d := by
  simp [kvUpdate, dictLookup]

theorem mem_getlist_foldl_appendlist (g : RevEntry → RevEntry) (k0 : String)
    (es : List RevEntry) : ∀ (lk : MVD) (k : String) (x : RevEntry),
    x ∈ getlist lk k →
    x ∈ getlist (es.foldl (fun a e => appendlist a k0 (g e)) lk) k := by
  induction es with
  | nil =>
      intro lk k x h
      exact h
  | cons e tail ih =>
      intro lk k x h
      rw [List.foldl_cons]
      exact ih _ _ _ (mem_getlist_appendlist _ _ _ _ h)

theorem mem_getlist_foldl_appendlist_self (g : RevEntry → RevEntry)
    (k0 : String) (es : List RevEntry) : ∀ (lk : MVD) (x : RevEntry),
    x ∈ es →
    g x ∈ getlist (es.foldl (fun a e => appendlist a k0 (g e)) lk) k0 := by
  induction es with
  | nil =>
      intro lk x h
      simp at h
  | cons e tail ih =>
      intro lk x h
      rw [List.foldl_cons]
      rcases List.mem_cons.mp h with hxe | hmem
      · rw [hxe]
        exact mem_getlist_foldl_appendlist g k0 tail _ _ _
          (self_mem_getlist_appendlist lk k0 (g e))
      · exact ih _ _ hmem

theorem mem_getlist_mergeChild_mono (pp ppat : List Char)
    (cdkw : List (String × String)) (t : MVD) :
    ∀ (lk : MVD) (k : String) (x : RevEntry), x ∈ getlist lk k →
    x ∈ getlist (mergeChild pp ppat cdkw lk t) k := by
  induction t with
  | nil =>
      intro lk k x h
      exact h
  | cons kv rest ih =>
      intro lk k x h
      have e : mergeChild pp ppat cdkw lk (kv :: rest)
          = mergeChild pp ppat cdkw
              (kv.2.foldl
                (fun acc2 e => appendlist acc2 kv.1 (chTransform pp ppat cdkw e))
                lk) rest := rfl
      rw [e]
      exact ih _ _ _ (mem_getlist_foldl_appendlist _ _ _ _ _ _ h)

theorem mem_getlist_mergeChild (pp ppat : List Char)
    (cdkw : List (String × String)) (t : MVD) :
    ∀ (lk : MVD) (k : String) (x : RevEntry), x ∈ getlist t k →
    chTransform pp ppat cdkw x ∈ getlist (mergeChild pp ppat cdkw lk t) k := by
  induction t with
  | nil =>
      intro lk k x h
      simp [getlist, dictLookup] at h
  | cons kv rest ih =>
      intro lk k x h
      obtain ⟨k0, es⟩ := kv
      have e : mergeChild pp ppat cdkw lk ((k0, es) :: rest)
          = mergeChild pp ppat cdkw
              (es.foldl
                (fun acc2 e => appendlist acc2 k0 (chTransform pp ppat cdkw e))
                lk) rest := rfl
      rw [e]
      by_cases hk : k0 = k
      · subst hk
        have hx : x ∈ es := by simpa [getlist, dictLookup] using h
        exact mem_getlist_mergeChild_mono pp ppat cdkw rest _ _ _
          (mem_getlist_foldl_appendlist_self _ _ es _ x hx)
      · have hx : x ∈ getlist rest k := by
          simpa [getlist, dictLookup, hk] using h
        exact ih _ _ _ hx

theorem mem_getlist_appendLeaf_mono (c : URLPattern) (lk : MVD) (k : String)
    (x : RevEntry) (h : x ∈ getlist lk k) :
    x ∈ getlist (appendLeaf lk c) k := by
  cases c with
  | pat rx ls cb nm df =>
      cases nm with
      | none => exact mem_getlist_appendlist _ _ _ _ h
      | some m =>
          exact mem_getlist_appendlist _ _ _ _
            (mem_getlist_appendlist _ _ _ _ h)
  | res a b c2 d e f g => exact h

theorem mem_getlist_leafLkF_mono (ls : List URLPattern) :
    ∀ (lk : MVD) (k : String) (x : RevEntry), x ∈ getlist lk k →
    x ∈ getlist (leafLkF lk ls) k := by
  induction ls with
  | nil =>
      intro lk k x h
      exact h
  | cons c tail ih =>
      intro lk k x h
      exact ih _ _ _ (mem_getlist_appendLeaf_mono c _ _ _ h)

theorem mem_getlist_leafLkF (ls : List URLPattern) :
    ∀ (lk : MVD) (rx : List Char) (lsr cb : String) (nm : Option String)
      (df : List (String × String)),
    (URLPattern.pat rx lsr cb nm df) ∈ ls →
    ((⟨normalize (stripCaret rx), stripCaret rx, df⟩ : RevEntry)
        ∈ getlist (leafLkF lk ls) cb
      ∧ ∀ m, nm = some m →
        (⟨normalize (stripCaret rx), stripCaret rx, df⟩ : RevEntry)
          ∈ getlist (leafLkF lk ls) m) := by
  induction ls with
  | nil =>
      intro lk rx lsr cb nm df h
      simp at h
  | cons c tail ih =>
      intro lk rx lsr cb nm df h
      rcases List.mem_cons.mp h with hce | hmem
      · have hstep : leafLkF lk (c :: tail) = leafLkF (appendLeaf lk c) tail :=
          rfl
        rw [hstep]
        constructor
        · apply mem_getlist_leafLkF_mono
          rw [← hce]
          cases nm with
          | none => exact self_mem_getlist_appendlist _ _ _
          | some m =>
              exact mem_getlist_appendlist _ _ _ _
                (self_mem_getlist_appendlist _ _ _)
        · intro m hm
          apply mem_getlist_leafLkF_mono
          rw [← hce]
          subst hm
          exact self_mem_getlist_appendlist _ _ _
      · exact ih (appendLeaf lk c) rx lsr cb nm df hmem

/-- Membership of every declared leaf, under both its callback and its
name, in the table a leaf-only resolver stores. -/
theorem mem_getlist_leafLookups (leaves : List URLPattern) (rx : List Char)
    (lsr cb : String) (nm : Option String) (df : List (String × String))
    (h : (URLPattern.pat rx lsr cb nm df) ∈ leaves) :
    ((⟨normalize (stripCaret rx), stripCaret rx, df⟩ : RevEntry)
        ∈ getlist (leafLookups leaves) cb
      ∧ ∀ m, nm = some m →
        (⟨normalize (stripCaret rx), stripCaret rx, df⟩ : RevEntry)
          ∈ getlist (leafLookups leaves) m) :=
  mem_getlist_leafLkF leaves.reverse [] rx lsr cb nm df
    (List.mem_reverse.mpr h)


/-- One completed `_populate` of a root resolver whose single child is a
`SiteRegexURLResolver` over leaf patterns (the `site_patterns` layout),
under an active tenant prefix with no table cached yet for it: the
child's `reverse_dict` property builds the child's (prefix-free) table,
the merge loop re-prefixes every entry with the dynamic `'^px/'`
fragment, line 105 rebuilds the child once more, and the root stores the
merged tables under the prefix. -/
theorem populate_root_site (n : Nat) (site : Option SiteCtx)
    (rrx srx : List Char) (rdkw sdkw : List (String × String))
    (leaves : List URLPattern) (rp2 : Bool) (rrd : List (String × MVD))
    (rnd : List (String × NsDict)) (rad : List (String × AppDict))
    (rcbs : List String) (sp2 : Bool) (srd : List (String × MVD))
    (snd : List (String × NsDict)) (sad : List (String × AppDict))
    (scbs : List String)
    (hl : ∀ c ∈ leaves, isLeaf c = true)
    (hfresh : dictLookup srd (getPathPfx site) = none)
    (hpx : getPathPfx site ≠ "_") :
    populate (n + 1 + 1) site
        (.res false rrx none none rdkw
          [.res true srx none none sdkw leaves ⟨false, sp2, srd, snd, sad, scbs⟩]
          ⟨false, rp2, rrd, rnd, rad, rcbs⟩)
      = (.res false rrx none none rdkw
          [.res true srx none none sdkw leaves
            (leafPopState (getPathPfx site)
              (leafPopState (getPathPfx site)
                ⟨false, sp2, srd, snd, sad, scbs⟩ leaves) leaves)]
          ⟨false, true,
            dictInsert rrd (getPathPfx site)
              (mergeChild ((getPathPfx site).data ++ ['/'])
                ('^' :: ((getPathPfx site).data ++ ['/'])) sdkw []
                (leafLookups leaves)),
            dictInsert rnd (getPathPfx site) [],
            dictInsert rad (getPathPfx site) [],
            setUnion rcbs (allLeafCbs (allLeafCbs scbs leaves) leaves)⟩,
         Except.ok ()) := by
  have hsrp : siteRegexPattern site
      = '^' :: ((getPathPfx site).data ++ ['/']) := by
    simp [siteRegexPattern, hpx]
  have hchild : childStep site (fun c => populate (n + 1) site c)
      ⟨[], rcbs, Except.ok ([], [], [])⟩
      (.res true srx none none sdkw leaves ⟨false, sp2, srd, snd, sad, scbs⟩)
      = ⟨[.res true srx none none sdkw leaves
            (leafPopState (getPathPfx site)
              (leafPopState (getPathPfx site)
                ⟨false, sp2, srd, snd, sad, scbs⟩ leaves) leaves)],
          setUnion rcbs (allLeafCbs (allLeafCbs scbs leaves) leaves),
          Except.ok
            (mergeChild ((getPathPfx site).data ++ ['/'])
              ('^' :: ((getPathPfx site).data ++ ['/'])) sdkw []
              (leafLookups leaves), [], [])⟩ := by
    simp [childStep, stOf, regexOf, hsrp, hfresh, dictLookup_dictInsert_self,
      populate_leafres n site true srx none none sdkw leaves sp2 srd snd sad
        scbs hl,
      populate_leafres n site true srx none none sdkw leaves true
        (dictInsert srd (getPathPfx site) (leafLookups leaves))
        (dictInsert snd (getPathPfx site) [])
        (dictInsert sad (getPathPfx site) [])
        (allLeafCbs scbs leaves) hl,
      leafPopState, stripCaret, mergeNs, mergeApps]
  rw [populate_succ_res_unfold]
  simp only [List.reverse_cons, List.reverse_nil, List.nil_append,
    List.foldl_cons, List.foldl_nil]
  rw [hchild]


/-! ## C4 -/

/-- **C4.** Per-prefix independence of the tables built from one shared
`site_patterns` graph.  Building the root under tenant prefix `p1` and
then under a distinct tenant prefix `p2` (both non-sentinel): each build
completes, each prefix gets its own merged reverse table, the second
build leaves the first prefix's table untouched, and for every leaf of
the graph both tables contain an entry under the leaf's callback and
under its declared name whose stored raw pattern string is the leaf's
stripped pattern with that build's own prefix (and the `'/'` of the
dynamic `'^px/'` site regex) prepended. -/
theorem populate_prefix_independence (leaves : List URLPattern)
    (p1 p2 : String) (n : Nat) (hl : ∀ c ∈ leaves, isLeaf c = true)
    (h1e : p1 ≠ "") (h1s : p1 ≠ "_") (h2e : p2 ≠ "") (h2s : p2 ≠ "_")
    (hne : p1 ≠ p2) :
    ∃ tbl1 tbl2 : MVD,
      (populate (n + 1 + 1) (some ⟨p1⟩) (mkRoot leaves)).2 = Except.ok ()
      ∧ dictLookup
          (stOf (populate (n + 1 + 1) (some ⟨p1⟩) (mkRoot leaves)).1).reverseD
          p1 = some tbl1
      ∧ (populate (n + 1 + 1) (some ⟨p2⟩)
          (populate (n + 1 + 1) (some ⟨p1⟩) (mkRoot leaves)).1).2
          = Except.ok ()
      ∧ dictLookup
          (stOf (populate (n + 1 + 1) (some ⟨p2⟩)
            (populate (n + 1 + 1) (some ⟨p1⟩) (mkRoot leaves)).1).1).reverseD
          p1 = some tbl1
      ∧ dictLookup
          (stOf (populate (n + 1 + 1) (some ⟨p2⟩)
            (populate (n + 1 + 1) (some ⟨p1⟩) (mkRoot leaves)).1).1).reverseD
          p2 = some tbl2
      ∧ ∀ (rx : List Char) (lsr cb : String) (nm : Option String)
          (df : List (String × String)),
          (URLPattern.pat rx lsr cb nm df) ∈ leaves →
          ((⟨normalize (('^' :: (p1.data ++ ['/'])) ++ stripCaret rx),
              (p1.data ++ ['/']) ++ stripCaret rx, df⟩ : RevEntry)
              ∈ getlist tbl1 cb
            ∧ (∀ m, nm = some m →
              (⟨normalize (('^' :: (p1.data ++ ['/'])) ++ stripCaret rx),
                (p1.data ++ ['/']) ++ stripCaret rx, df⟩ : RevEntry)
                ∈ getlist tbl1 m)
            ∧ (⟨normalize (('^' :: (p2.data ++ ['/'])) ++ stripCaret rx),
                (p2.data ++ ['/']) ++ stripCaret rx, df⟩ : RevEntry)
                ∈ getlist tbl2 cb
            ∧ (∀ m, nm = some m →
              (⟨normalize (('^' :: (p2.data ++ ['/'])) ++ stripCaret rx),
                (p2.data ++ ['/']) ++ stripCaret rx, df⟩ : RevEntry)
                ∈ getlist tbl2 m)) := by
  have hpx1 : getPathPfx (some ⟨p1⟩) = p1 := by simp [getPathPfx, h1e]
  have hpx2 : getPathPfx (some ⟨p2⟩) = p2 := by simp [getPathPfx, h2e]
  have hA : populate (n + 1 + 1) (some ⟨p1⟩) (mkRoot leaves)
      = (.res false ('^' :: ['/']) none none []
          [.res true [] none none [] leaves
            ⟨false, true,
              dictInsert (dictInsert [] p1 (leafLookups leaves)) p1
                (leafLookups leaves),
              dictInsert (dictInsert [] p1 []) p1 [],
              dictInsert (dictInsert [] p1 []) p1 [],
              allLeafCbs (allLeafCbs [] leaves) leaves⟩]
          ⟨false, true,
            dictInsert [] p1 (mergeChild (p1.data ++ ['/'])
              ('^' :: (p1.data ++ ['/'])) [] [] (leafLookups leaves)),
            dictInsert [] p1 [],
            dictInsert [] p1 [],
            setUnion [] (allLeafCbs (allLeafCbs [] leaves) leaves)⟩,
         Except.ok ()) := by
    have h := populate_root_site n (some ⟨p1⟩) ('^' :: ['/']) [] [] [] leaves
      false [] [] [] [] false [] [] [] [] hl rfl (by rw [hpx1]; exact h1s)
    rw [hpx1] at h
    exact h
  have hB := populate_root_site n (some ⟨p2⟩) ('^' :: ['/']) [] [] []
    leaves
    true
    (dictInsert [] p1 (mergeChild (p1.data ++ ['/'])
      ('^' :: (p1.data ++ ['/'])) [] [] (leafLookups leaves)))
    (dictInsert [] p1 [])
    (dictInsert [] p1 [])
    (setUnion [] (allLeafCbs (allLeafCbs [] leaves) leaves))
    true
    (dictInsert (dictInsert [] p1 (leafLookups leaves)) p1
      (leafLookups leaves))
    (dictInsert (dictInsert [] p1 []) p1 [])
    (dictInsert (dictInsert [] p1 []) p1 [])
    (allLeafCbs (allLeafCbs [] leaves) leaves)
    hl
    (by
      rw [hpx2, dictLookup_dictInsert_ne _ _ _ _ (Ne.symm hne),
        dictLookup_dictInsert_ne _ _ _ _ (Ne.symm hne)]
      rfl)
    (by rw [hpx2]; exact h2s)
  rw [hpx2] at hB
  refine ⟨mergeChild (p1.data ++ ['/']) ('^' :: (p1.data ++ ['/'])) [] []
      (leafLookups leaves),
    mergeChild (p2.data ++ ['/']) ('^' :: (p2.data ++ ['/'])) [] []
      (leafLookups leaves), ?_, ?_, ?_, ?_, ?_, ?_⟩
  · rw [hA]
  · simp only [hA, stOf]
    exact dictLookup_dictInsert_self _ _ _
  · simp only [hA]
    rw [hB]
  · simp only [hA]
    rw [hB]
    simp only [stOf]
    rw [dictLookup_dictInsert_ne _ _ _ _ hne]
    exact dictLookup_dictInsert_self _ _ _
  · simp only [hA]
    rw [hB]
    simp only [stOf]
    exact dictLookup_dictInsert_self _ _ _
  · intro rx lsr cb nm df hmem
    have base := mem_getlist_leafLookups leaves rx lsr cb nm df hmem
    refine ⟨?_, ?_, ?_, ?_⟩
    · have t := mem_getlist_mergeChild (p1.data ++ ['/'])
        ('^' :: (p1.data ++ ['/'])) [] (leafLookups leaves) [] cb _ base.1
      simpa only [chTransform, kvUpdate_nil] using t
    · intro m hm
      have t := mem_getlist_mergeChild (p1.data ++ ['/'])
        ('^' :: (p1.data ++ ['/'])) [] (leafLookups leaves) [] m _
        (base.2 m hm)
      simpa only [chTransform, kvUpdate_nil] using t
    · have t := mem_getlist_mergeChild (p2.data ++ ['/'])
        ('^' :: (p2.data ++ ['/'])) [] (leafLookups leaves) [] cb _ base.1
      simpa only [chTransform, kvUpdate_nil] using t
    · intro m hm
      have t := mem_getlist_mergeChild (p2.data ++ ['/'])
        ('^' :: (p2.data ++ ['/'])) [] (leafLookups leaves) [] m _
        (base.2 m hm)
      simpa only [chTransform, kvUpdate_nil] using t


/-- Witness for `populate_prefix_independence`: the single named leaf
`wLeaf` built under `acme` and then under `beta`. -/
theorem populate_prefix_independence_witness :
    ∃ tbl1 tbl2 : MVD,
      (populate (0 + 1 + 1) (some ⟨"acme"⟩) (mkRoot [wLeaf])).2
          = Except.ok ()
      ∧ dictLookup
          (stOf (populate (0 + 1 + 1) (some ⟨"acme"⟩)
            (mkRoot [wLeaf])).1).reverseD "acme" = some tbl1
      ∧ (populate (0 + 1 + 1) (some ⟨"beta"⟩)
          (populate (0 + 1 + 1) (some ⟨"acme"⟩) (mkRoot [wLeaf])).1).2
          = Except.ok ()
      ∧ dictLookup
          (stOf (populate (0 + 1 + 1) (some ⟨"beta"⟩)
            (populate (0 + 1 + 1) (some ⟨"acme"⟩)
              (mkRoot [wLeaf])).1).1).reverseD "acme" = some tbl1
      ∧ dictLookup
          (stOf (populate (0 + 1 + 1) (some ⟨"beta"⟩)
            (populate (0 + 1 + 1) (some ⟨"acme"⟩)
              (mkRoot [wLeaf])).1).1).reverseD "beta" = some tbl2
      ∧ ∀ (rx : List Char) (lsr cb : String) (nm : Option String)
          (df : List (String × String)),
          (URLPattern.pat rx lsr cb nm df) ∈ [wLeaf] →
          ((⟨normalize (('^' :: ("acme".data ++ ['/'])) ++ stripCaret rx),
              ("acme".data ++ ['/']) ++ stripCaret rx, df⟩ : RevEntry)
              ∈ getlist tbl1 cb
            ∧ (∀ m, nm = some m →
              (⟨normalize (('^' :: ("acme".data ++ ['/'])) ++ stripCaret rx),
                ("acme".data ++ ['/']) ++ stripCaret rx, df⟩ : RevEntry)
                ∈ getlist tbl1 m)
            ∧ (⟨normalize (('^' :: ("beta".data ++ ['/'])) ++ stripCaret rx),
                ("beta".data ++ ['/']) ++ stripCaret rx, df⟩ : RevEntry)
                ∈ getlist tbl2 cb
            ∧ (∀ m, nm = some m →
              (⟨normalize (('^' :: ("beta".data ++ ['/'])) ++ stripCaret rx),
                ("beta".data ++ ['/']) ++ stripCaret rx, df⟩ : RevEntry)
                ∈ getlist tbl2 m)) :=
  populate_prefix_independence [wLeaf] "acme" "beta" 0
    (by
      intro c hc
      rw [List.mem_singleton] at hc
      subst hc
      rfl)
    (by decide) (by decide) (by decide) (by decide) (by decide)

end Multitier
